import Mathlib

/-!
Shallow embedding of the pmac_motorhome conversion tool.

Sources embedded here:
- `src/dls_motorhome/motor.py` (class `Motor`: `PVARS`, `__init__`, `nx`)
- `src/converter/motionarea.py` (`MotionArea.handle_post`, the post-block
  emission inside `MotionArea.make_code`, `MotionArea.check_matches`)
- `src/converter/converter.py` (`file`: derivation of target names from the
  script text when `names == ()`)
- `src/converter/indent.py` (`Indenter.format_text`)

Python integers are modelled as `Int`, Python lists as `List`, the mutable
class-level registries as explicit state passing.
-/

/-- Offsets into the PLC's P-variables, exactly the `Motor.PVARS` dict of
`src/dls_motorhome/motor.py`. -/
def PVARS : List (String × Int) :=
  [("hi_lim", 4), ("lo_lim", 20), ("homed", 36), ("not_homed", 52),
   ("lim_flags", 68), ("pos", 84)]

/-- Numeric part of `Motor.nx`: Python computes
`int(int((axis - 1) / 4) * 10 + int((axis - 1) % 4 + 1))`; `int()` of the true
division truncates toward zero, which is `Int.tdiv`, and Python `%` with the
positive divisor 4 is `Int.emod`. -/
def nxOf (axis : Int) : Int :=
  (axis - 1).tdiv 4 * 10 + ((axis - 1).emod 4 + 1)

/-- Python `"{:02}".format (n)` for an integer: left pad with `0` to width 2. -/
def fmt02 (n : Int) : String :=
  if 0 ≤ n ∧ n < 10 then "0" ++ toString n else toString n

/-- The `Motor.nx` property (a zero padded two digit string). -/
def nx (axis : Int) : String := fmt02 (nxOf axis)

/-- One `Motor` instance: the fields set by `Motor.__init__`.  The entries the
constructor writes into `self.dict` for each `PVARS` field are collected in
`regOffsets` (an association list standing for the string-keyed dict). -/
structure Motor where
  axis : Int
  jdist : Int
  index : Nat
  homed_flag : String
  regOffsets : List (String × Int)
deriving Repr, DecidableEq

/-- `Motor.__init__(axis, jdist, plc_num)`: reads the current class-level
`Motor.instances` list, takes `index = len(instances)`, appends itself, and
precomputes `plc_num * 100 + start + index` for every `PVARS` entry.  The
mutable class list is threaded explicitly: the result is the new motor and the
updated `instances` list. -/
def mkMotor (axis jdist plc_num : Int) (instances : List Motor) :
    Motor × List Motor :=
  let index := instances.length
  let m : Motor :=
    { axis := axis
      jdist := jdist
      index := index
      homed_flag := "7" ++ nx axis ++ "2"
      regOffsets := PVARS.map (fun p => (p.1, plc_num * 100 + p.2 + (index : Int))) }
  (m, instances ++ [m])

/-- The six derived register offsets as a pure function of the field name, as
in `self.dict[name] = plc_num * 100 + start + self.index`. -/
def offsetOf (field : String) (plc_num : Int) (index : Nat) : Option Int :=
  (PVARS.lookup field).map (fun b => plc_num * 100 + b + (index : Int))

/-- The list of the six register offsets of one motor, in `PVARS` order. -/
def offsets (plc_num : Int) (index : Nat) : List Int :=
  PVARS.map (fun p => plc_num * 100 + p.2 + (index : Int))

/-- A whole run constructing motors one after the other (any PLC, any group):
each request carries `(axis, jdist, plc_num)` and the shared `instances`
registry is threaded through all constructions. -/
def buildMotors (reqs : List (Int × Int × Int)) (st : List Motor) : List Motor :=
  match reqs with
  | [] => st
  | r :: rest => buildMotors rest (mkMotor r.1 r.2.1 r.2.2 st).2

/-- A dynamically typed Python value as it reaches `MotionArea.handle_post`:
the post token is `None`, an `int`, a `float` or a `str`.  Python floats are
modelled as rationals; the only float the development ever evaluates is `0.0`,
which the rational `0` represents exactly. -/
inductive Py where
  | none
  | int (n : Int)
  | float (q : Rat)
  | str (s : String)
deriving Repr, DecidableEq

/-- Python `str()` of a float.  For floats of integral value this is exact
(`str(0.0) == "0.0"`); non-integral floats never occur in the claims and are
rendered as a fraction. -/
def floatStr (q : Rat) : String :=
  if q.den = 1 then toString q.num ++ ".0"
  else toString q.num ++ "/" ++ toString q.den

/-- Python `str()` on the values `handle_post` can receive. -/
def pyStr : Py → String
  | Py.none => "None"
  | Py.int n => toString n
  | Py.float q => floatStr q
  | Py.str s => s

/-- Python `==` on those values: `None` only equals `None`, numbers compare by
numeric value across `int`/`float` (`0.0 == 0` is true), strings compare as
strings, and mixed type comparisons are false. -/
def pyEq : Py → Py → Bool
  | Py.none, Py.none => true
  | Py.int a, Py.int b => decide (a = b)
  | Py.int a, Py.float q => decide ((a : Rat) = q)
  | Py.float q, Py.int a => decide (q = (a : Rat))
  | Py.float a, Py.float b => decide (a = b)
  | Py.str a, Py.str b => decide (a = b)
  | _, _ => false

/-- After the optional leading `-`, at least one digit must follow (`-?\d+`
as a prefix match; digits are the ASCII digits the legacy tokens use). -/
def signedDigits : List Char → Bool
  | [] => false
  | '-' :: rest =>
    match rest with
    | [] => false
    | d :: _ => d.isDigit
  | d :: _ => d.isDigit

/-- Prefix match of `^c(-?\d+)` against a string, for a literal head char. -/
def chMatch (c : Char) (s : String) : Bool :=
  match s.data with
  | d :: rest => d == c && signedDigits rest
  | [] => false

/-- The compiled pattern `re.compile(r"^r(-?\d+)")` used as a boolean match. -/
def post_relative_move (s : String) : Bool := chMatch 'r' s

/-- The compiled pattern `re.compile(r"^z(-?\d+)")` used as a boolean match. -/
def post_relative_hmz_move (s : String) : Bool := chMatch 'z' s

/-- Python slicing `s[1:]` (strings are sequences of code points). -/
def strTail (s : String) : String := String.mk (s.data.drop 1)

/-- The maximal leading run of digits, used to model what the regex group
`(-?\d+)` actually captures. -/
def digitRun : List Char → List Char
  | [] => []
  | d :: rest => if d.isDigit then d :: digitRun rest else []

/-- What the group `(-?\d+)` of `^r(-?\d+)` / `^z(-?\d+)` captures: an
optional sign and then the maximal digit run, taken after the head char.
This follows the claim's words ("the digits captured by the regex group");
`handle_post` itself never reads the group. -/
def capturedGroup (s : String) : String :=
  match s.data.drop 1 with
  | '-' :: rest => String.mk ('-' :: digitRun rest)
  | l => String.mk (digitRun l)

/-- `MotionArea.handle_post(post)`: translate an old school post token into
`(post_code, extra_args, post_type)`.  The branch chain mirrors the source:
the `(None, 0, "0")` membership test (by Python `==`), the five single letter
codes, the two regex matches on `str(post)` (whose distance is
`post_type[1:]`), the numeric fallback, then raw code. -/
def handle_post (post : Py) : String × String × String :=
  let post_type := pyStr post
  if pyEq post Py.none || pyEq post (Py.int 0) || pyEq post (Py.str "0") then
    ("", "", post_type)
  else if pyEq post (Py.str "i") then
    ("", ", post_home=PostHomeMove.initial_position", post_type)
  else if pyEq post (Py.str "h") then
    ("", ", post_home=PostHomeMove.high_limit", post_type)
  else if pyEq post (Py.str "l") then
    ("", ", post_home=PostHomeMove.low_limit", post_type)
  else if pyEq post (Py.str "H") then
    ("", ", post_home=PostHomeMove.hard_hi_limit", post_type)
  else if pyEq post (Py.str "L") then
    ("", ", post_home=PostHomeMove.hard_lo_limit", post_type)
  else if post_relative_move post_type then
    ("", ", post_home=PostHomeMove.relative_move" ++
      ", post_distance=" ++ strTail post_type, post_type)
  else if post_relative_hmz_move post_type then
    ("", ", post_home=PostHomeMove.move_and_hmz" ++
      ", post_distance=" ++ strTail post_type, post_type)
  else
    match post with
    | Py.int n =>
      ("", ", post_home=PostHomeMove.move_absolute" ++
        ", post_distance=" ++ pyStr (Py.int n), pyStr (Py.int n))
    | Py.float q =>
      ("", ", post_home=PostHomeMove.move_absolute" ++
        ", post_distance=" ++ pyStr (Py.float q), pyStr (Py.float q))
    | p => (pyStr p, "", "None")

/-- The `Indenter` of `src/converter/indent.py`. -/
structure Indenter where
  level : Nat

/-- `Indenter.format_text`: four spaces per level, then the text, then a
newline. -/
def Indenter.format_text (ind : Indenter) (text : String) : String :=
  String.mk (List.flatten (List.replicate ind.level "    ".data)) ++ text ++ "\n"

/-- Python `re.sub("\t", "    ", s)`: every tab becomes four spaces. -/
def tabSub (s : String) : String :=
  String.mk (s.data.flatMap (fun c => if c = '\t' then [' ', ' ', ' ', ' '] else [c]))

/-- The post block that `MotionArea.make_code` writes for a group whose
`handle_post` returned a non empty `post_code`:
`indent_level1.format_text(f'post{group_num} = """{post} """')` after
`post = re.sub("\t", "    ", str(post_code))`. -/
def make_code_post_block (group_num : Int) (post_code : String) : String :=
  (Indenter.mk 1).format_text
    ("post" ++ toString group_num ++ " = \"\"\"" ++ tabSub post_code ++ " \"\"\"")

/-- Boolean list prefix test used to state substring containment. -/
def isPrefixList : List Char → List Char → Bool
  | [], _ => true
  | _ :: _, [] => false
  | a :: as, b :: bs => a == b && isPrefixList as bs

/-- Boolean contiguous sublist test: does `small` occur inside `big`? -/
def hasSub : List Char → List Char → Bool
  | [], small => small.isEmpty
  | c :: rest, small => isPrefixList small (c :: rest) || hasSub rest small

/-- Modelled from the spec: the shim `Group` objects stored in a PLC's
`groups` dict (the `converter.shim` package is not under `src/`); only the
group number, which `make_code` prints and sorts on, is kept. -/
structure GroupRec where
  group_num : Int
deriving Repr, DecidableEq

/-- Insertion into an ascending list, the building block of `sortAsc`. -/
def insertAsc (x : Int) : List Int → List Int
  | [] => [x]
  | y :: ys => if x ≤ y then x :: y :: ys else y :: insertAsc x ys

/-- Python `sorted` on a list of integer keys (the output of a correct
ascending sort is unique, so insertion sort models it exactly). -/
def sortAsc (l : List Int) : List Int := l.foldr insertAsc []

/-- The group numbers in the order `make_code` emits the groups of one PLC:
`for group_num in sorted(plc.groups.keys())`.  The dict is modelled as an
association list in creation (insertion) order. -/
def emittedGroupNums (groups : List (Int × GroupRec)) : List Int :=
  sortAsc (groups.map Prod.fst)

/-- One comparison performed by `MotionArea.check_matches`: the old and new
file paths and whether `diff -bB` reported them equal (returncode 0). -/
structure DiffPair where
  oldPlc : String
  newPlc : String
  same : Bool
deriving Repr, DecidableEq

/-- The two shapes of `MotionArea.copy_new_gen` when `check_matches` runs:
a list of per brick `(new_gen, old_gen)` script pairs, or a single script
path. -/
inductive CopyGen where
  | perBrick (gens : List (String × String))
  | single (new_gen : String)
deriving Repr, DecidableEq

/-- Concatenation of a list of strings (Python `+=` accumulation). -/
def joinStr : List String → String
  | [] => ""
  | s :: rest => s ++ joinStr rest

/-- The lines accumulated into the `mismatch` report, one per pair whose
diff failed, in comparison order. -/
def mismatchLines (pairs : List DiffPair) : List String :=
  (pairs.filter (fun p => p.same = false)).map
    (fun p => p.oldPlc ++ " " ++ p.newPlc ++ "\n")

/-- The loop of `check_matches`: walks the compared files accumulating
`count`, `mismatches` and the `mismatch` text, mirroring the three mutable
locals of the source. -/
def checkLoop : List DiffPair → Nat → Nat → String → Nat × Nat × String
  | [], count, mismatches, mismatch => (count, mismatches, mismatch)
  | p :: rest, count, mismatches, mismatch =>
    if p.same then checkLoop rest (count + 1) mismatches mismatch
    else checkLoop rest (count + 1) (mismatches + 1)
      (mismatch ++ (p.oldPlc ++ " " ++ p.newPlc ++ "\n"))

/-- The copy command message `check_matches` always logs, per the
`isinstance(self.copy_new_gen, list)` branch. -/
def copyMsgOf (copyGen : CopyGen) (originalPath : String) : String :=
  match copyGen with
  | CopyGen.perBrick gens =>
    "To copy the new generatings scripts, use the following commands:\n" ++
      joinStr (gens.map (fun g => "mv " ++ g.1 ++ " " ++ g.2 ++ "\n"))
  | CopyGen.single new_gen =>
    "To copy the new generating script, use the following command:\n" ++
      "mv " ++ new_gen ++ " " ++ originalPath ++ "/configure/motorhome.py\n"

/-- `MotionArea.check_matches`, with the filesystem walk abstracted into the
list of compared pairs.  Returns the ordered log of emitted messages and
whether the final `assert mismatches == 0` passes.  The report and the copy
command are part of the log unconditionally: they are produced before the
assert fires. -/
def check_matches (pairs : List DiffPair) (originalPath oldMotion newMotion : String)
    (copyGen : CopyGen) : List String × Bool :=
  let r := checkLoop pairs 0 0 "The following PLCs did not match the originals:\n"
  let count := r.1
  let mismatches := r.2.1
  let mismatch := r.2.2
  let report :=
    if mismatches = 0 then
      ["Success: 0 of " ++ toString count ++
        " new generated PLCs don\x27t match old PLCs for " ++ originalPath]
    else
      ["Failure: " ++ toString mismatches ++ " of " ++ toString count ++
        " PLC files do not match for " ++ originalPath ++
        "\nreview differences with:\nmeld " ++ oldMotion ++ " " ++ newMotion ++ "\n",
       mismatch]
  (["verifying matches ..."] ++ report ++ [copyMsgOf copyGen originalPath],
   decide (mismatches = 0))

/-- The literal part of the pattern `^[^#]*if name == "([^"]*)"`. -/
def litChars : List Char := "if name == \"".data

/-- Does a multiline `^` anchor hold at position `p` of the text? -/
def lineStartB (s : List Char) (p : Nat) : Bool :=
  p == 0 || s.getD (p - 1) ' ' == '\n'

/-- Is the 12 character literal `if name == "` present at position `q`? -/
def literalAt (s : List Char) (q : Nat) : Bool :=
  decide ((s.drop q).take 12 = litChars)

/-- Does a closing `"` for the group `([^"]*)` exist after position `q+12`? -/
def hasClose (s : List Char) (q : Nat) : Bool :=
  (s.drop (q + 12)).any (fun c => c == '"')

/-- The group text: everything from `q+12` up to the next `"`. -/
def capture (s : List Char) (q : Nat) : List Char :=
  (s.drop (q + 12)).takeWhile (fun c => c != '"')

/-- Where the whole regex match starting with its literal at `q` ends
(one past the closing quote). -/
def matchEnd (s : List Char) (q : Nat) : Nat :=
  q + 12 + (capture s q).length + 1

/-- Can the literal of the pattern be placed at `q` and complete a match? -/
def litOk (s : List Char) (q : Nat) : Bool :=
  literalAt s q && hasClose s q

/-- Greedy backtracking of `[^#]*`: the largest literal position in
`[p, q]` that completes a match, scanning downward. -/
def bestLit (s : List Char) (p : Nat) : Nat → Option Nat
  | 0 => if p == 0 && litOk s 0 then some 0 else none
  | q + 1 =>
    if q + 1 < p then none
    else if litOk s (q + 1) then some (q + 1)
    else bestLit s p q

/-- One attempt of `^[^#]*if name == "([^"]*)"` at line start `p`: `[^#]*`
may consume any hash free text (newlines included, since a negated class
matches them), so the literal may sit anywhere up to the first `#` at or
after `p`; greediness picks the last such position that still finds a
closing quote.  Returns the captured group and the end of the match. -/
def matchAt (s : List Char) (p : Nat) : Option (List Char × Nat) :=
  let stop := p + (s.drop p).findIdx (fun c => c == '#')
  match bestLit s p stop with
  | some q => some (capture s q, matchEnd s q)
  | none => none

/-- The scan loop of `re.findall(..., flags=re.M)`: try every multiline line
start from left to right, emit the capture of each successful match, and
resume after the end of the match (matches do not overlap). -/
def findallGo (s : List Char) : Nat → Nat → List (List Char)
  | 0, _ => []
  | fuel + 1, pos =>
    if pos > s.length then []
    else if lineStartB s pos then
      match matchAt s pos with
      | some (cap, e) => cap :: findallGo s fuel e
      | none => findallGo s fuel (pos + 1)
    else findallGo s fuel (pos + 1)

/-- `re.findall('^[^#]*if name == "([^"]*)"', filetext, flags=re.M)`. -/
def findall (filetext : String) : List String :=
  (findallGo filetext.data (filetext.data.length + 2) 0).map String.mk

/-- `enumerate(matches)` rendered through the f-string
`f"PLCs/PLC{i+11}_{m}_HM.pmc"`, starting the counter at `i`. -/
def nameList (i : Nat) : List String → List String
  | [] => []
  | m :: rest =>
    ("PLCs/PLC" ++ toString (i + 11) ++ "_" ++ m ++ "_HM.pmc") :: nameList (i + 1) rest

/-- The names `converter.file` synthesizes when called with `names == ()`:
one per `findall` match, numbered sequentially from 11. -/
def deriveNames (filetext : String) : List String :=
  nameList 0 (findall filetext)

/-- Split a character list at newlines (each line without its terminator). -/
def splitLines : List Char → List (List Char)
  | [] => [[]]
  | '\n' :: rest => [] :: splitLines rest
  | c :: rest =>
    match splitLines rest with
    | [] => [[c]]
    | l :: ls => (c :: l) :: ls

/-- Formalisation of the claim's reading of the derivation: scan the script
line by line, in order of appearance, take one match per line that matches
the branch pattern (a line whose `#`, if any, precedes no usable literal is
skipped), and number the names sequentially from 11. -/
def claimDeriveNames (filetext : String) : List String :=
  nameList 0
    ((splitLines filetext.data).filterMap
      (fun ln => (matchAt ln 0).map (fun pr => String.mk pr.1)))

theorem buildMotors_index (reqs : List (Int × Int × Int)) :
    ∀ st : List Motor, (buildMotors reqs st).map Motor.index
      = st.map Motor.index ++ List.range' st.length reqs.length := by
  induction reqs with
  | nil => intro st; simp [buildMotors]
  | cons r rest ih =>
    intro st
    rw [buildMotors, ih]
    simp [mkMotor, List.range'_succ]

/-- C4 counterexample: the nx code is not invariant within an axis bank;
already the first two axes of bank 1 get different codes ("01" vs "02"). -/
theorem nx_bank_invariance_cex : nx 1 ≠ nx 2 := by decide

/-- C4 (amended): within bank 1 the nx codes are the four distinct values
"01".."04" (so nx is not constant on a bank, only its tens digit is), and
each of nx(5)..nx(8) exceeds the corresponding bank-1 value by exactly 10. -/
theorem nx_bank_structure :
    nx 1 = "01" ∧ nx 2 = "02" ∧ nx 3 = "03" ∧ nx 4 = "04" ∧
    nxOf 5 = nxOf 1 + 10 ∧ nxOf 6 = nxOf 2 + 10 ∧
    nxOf 7 = nxOf 3 + 10 ∧ nxOf 8 = nxOf 4 + 10 ∧
    nxOf 1 / 10 = 0 ∧ nxOf 2 / 10 = 0 ∧ nxOf 3 / 10 = 0 ∧ nxOf 4 / 10 = 0 := by
  decide

/-- C1: a motor constructed over registry state `st` stores, for each of the
six fields of the fixed table `PVARS` (which is exactly the claimed
FIELD_BASE), the offset `plc_num * 100 + base + creation_index`, the creation
index being the length of the registry at construction time. -/
theorem motor_offsets_formula (axis jdist plc_num : Int) (st : List Motor)
    (f : String) (b : Int) (hfb : (f, b) ∈ PVARS) :
    PVARS = [("hi_lim", 4), ("lo_lim", 20), ("homed", 36), ("not_homed", 52),
      ("lim_flags", 68), ("pos", 84)] ∧
    ((mkMotor axis jdist plc_num st).1).regOffsets.lookup f
      = some (plc_num * 100 + b + (st.length : Int)) := by
  refine ⟨rfl, ?_⟩
  simp only [PVARS, List.mem_cons, List.not_mem_nil, or_false, Prod.mk.injEq] at hfb
  rcases hfb with ⟨rfl, rfl⟩ | ⟨rfl, rfl⟩ | ⟨rfl, rfl⟩ | ⟨rfl, rfl⟩ |
    ⟨rfl, rfl⟩ | ⟨rfl, rfl⟩ <;> rfl

/-- C1 witness at a concrete construction. -/
theorem motor_offsets_formula_spot :
    PVARS = [("hi_lim", 4), ("lo_lim", 20), ("homed", 36), ("not_homed", 52),
      ("lim_flags", 68), ("pos", 84)] ∧
    ((mkMotor 1 0 9 []).1).regOffsets.lookup "homed" = some 936 :=
  motor_offsets_formula 1 0 9 [] "homed" 36 (by decide)

/-- C5: for a fixed field and PLC number the stored offset is strictly
increasing in the creation index, and for a fixed (plc, index) the six
fields produce six pairwise distinct offsets. -/
theorem offset_mono_distinct :
    (∀ (field : String) (plc : Int) (i j : Nat) (v w : Int), i < j →
      offsetOf field plc i = some v → offsetOf field plc j = some w → v < w) ∧
    (∀ (plc : Int) (idx : Nat), (offsets plc idx).Nodup) := by
  constructor
  · intro field plc i j v w hij hv hw
    unfold offsetOf at hv hw
    cases hb : PVARS.lookup field with
    | none => rw [hb] at hv; exact Option.noConfusion hv
    | some b =>
      rw [hb] at hv hw
      have hv' : plc * 100 + b + (i : Int) = v := Option.some.inj hv
      have hw' : plc * 100 + b + (j : Int) = w := Option.some.inj hw
      omega
  · intro plc idx
    simp [offsets, PVARS]

/-- C5 witness: the "pos" offsets for PLC 3 at indices 0 and 1, plus the
distinctness of the six offsets at (plc, index) = (3, 0). -/
theorem offset_mono_distinct_spot : (384 : Int) < 385 ∧ (offsets 3 0).Nodup :=
  ⟨offset_mono_distinct.1 "pos" 3 0 1 384 385 (by decide) (by decide) (by decide),
   offset_mono_distinct.2 3 0⟩

/-- C7: over a run starting from the empty registry the k-th constructed
motor gets index k-1 (the indices read off in registry order are 0,1,2,...),
each construction appends exactly one entry whose index is the previous
registry length, and running two request batches in sequence threads the
same registry through (the counter is not reset between batches). -/
theorem motor_index_counter :
    (∀ reqs : List (Int × Int × Int),
      (buildMotors reqs []).map Motor.index = List.range reqs.length) ∧
    (∀ (axis jdist plc_num : Int) (st : List Motor),
      (mkMotor axis jdist plc_num st).2
          = st ++ [(mkMotor axis jdist plc_num st).1] ∧
      (mkMotor axis jdist plc_num st).1.index = st.length) ∧
    (∀ (r1 r2 : List (Int × Int × Int)) (st : List Motor),
      buildMotors (r1 ++ r2) st = buildMotors r2 (buildMotors r1 st)) := by
  refine ⟨?_, ?_, ?_⟩
  · intro reqs
    rw [buildMotors_index]
    simp [List.range_eq_range']
  · intro axis jdist plc_num st
    exact ⟨rfl, rfl⟩
  · intro r1
    induction r1 with
    | nil => intro r2 st; rfl
    | cons r rest ih =>
      intro r2 st
      rw [List.cons_append, buildMotors, buildMotors, ih]

theorem handle_post_r (rest : List Char) (hsig : signedDigits rest = true) :
    handle_post (Py.str (String.mk ('r' :: rest)))
      = ("", ", post_home=PostHomeMove.relative_move" ++
          ", post_distance=" ++ strTail (String.mk ('r' :: rest)),
         String.mk ('r' :: rest)) := by
  unfold handle_post
  split_ifs with h1 h2 h3 h4 h5 h6
  · exact Bool.noConfusion (show false = true from h1)
  · exact Bool.noConfusion (show false = true from h2)
  · exact Bool.noConfusion (show false = true from h3)
  · exact Bool.noConfusion (show false = true from h4)
  · exact Bool.noConfusion (show false = true from h5)
  · exact Bool.noConfusion (show false = true from h6)
  · simp only [show post_relative_move
      (pyStr (Py.str (String.mk ('r' :: rest)))) = true from hsig]
    rfl

theorem handle_post_z (rest : List Char) (hsig : signedDigits rest = true) :
    handle_post (Py.str (String.mk ('z' :: rest)))
      = ("", ", post_home=PostHomeMove.move_and_hmz" ++
          ", post_distance=" ++ strTail (String.mk ('z' :: rest)),
         String.mk ('z' :: rest)) := by
  unfold handle_post
  split_ifs with h1 h2 h3 h4 h5 h6
  · exact Bool.noConfusion (show false = true from h1)
  · exact Bool.noConfusion (show false = true from h2)
  · exact Bool.noConfusion (show false = true from h3)
  · exact Bool.noConfusion (show false = true from h4)
  · exact Bool.noConfusion (show false = true from h5)
  · exact Bool.noConfusion (show false = true from h6)
  · simp only [show post_relative_move
        (pyStr (Py.str (String.mk ('z' :: rest)))) = false from rfl,
      show post_relative_hmz_move
        (pyStr (Py.str (String.mk ('z' :: rest)))) = true from hsig]
    rfl

theorem match_head (c : Char) (s : String) (h : chMatch c s = true) :
    ∃ rest, s.data = c :: rest ∧ signedDigits rest = true := by
  cases hsd : s.data with
  | nil =>
    simp only [chMatch, hsd] at h
    exact Bool.noConfusion h
  | cons d rest =>
    simp only [chMatch, hsd, Bool.and_eq_true, beq_iff_eq] at h
    exact ⟨rest, by rw [h.1], h.2⟩

/-- C2 counterexample: the token "r5x" matches `^r(-?\d+)` with captured
digits "5", but `handle_post` emits `post_distance=5x` (it slices
`post_type[1:]` instead of reading the regex group). -/
theorem post_rz_distance_cex :
    capturedGroup "r5x" = "5" ∧
    post_relative_move "r5x" = true ∧
    (handle_post (Py.str "r5x")).2.1
      ≠ ", post_home=PostHomeMove.relative_move" ++
        ", post_distance=" ++ capturedGroup "r5x" := by
  refine ⟨by decide, by decide, ?_⟩
  decide

/-- C2 (amended): a token matching `^r(-?\d+)` yields the relative_move
action and a token matching `^z(-?\d+)` yields move_and_hmz, in both cases
with post_distance equal to the whole token text after the leading
character (`post_type[1:]`), which equals the captured digits exactly when
nothing follows them. -/
theorem post_rz_distance_tail (s : String) :
    (post_relative_move s = true →
      handle_post (Py.str s)
        = ("", ", post_home=PostHomeMove.relative_move" ++
            ", post_distance=" ++ strTail s, s)) ∧
    (post_relative_hmz_move s = true →
      handle_post (Py.str s)
        = ("", ", post_home=PostHomeMove.move_and_hmz" ++
            ", post_distance=" ++ strTail s, s)) := by
  constructor
  · intro h
    obtain ⟨rest, hd, hsig⟩ := match_head 'r' s h
    rw [String.ext (h := hd)]
    exact handle_post_r rest hsig
  · intro h
    obtain ⟨rest, hd, hsig⟩ := match_head 'z' s h
    rw [String.ext (h := hd)]
    exact handle_post_z rest hsig

/-- C2 witness: concrete r and z tokens, one with trailing text. -/
theorem post_rz_distance_tail_spot :
    handle_post (Py.str "r-42xy")
      = ("", ", post_home=PostHomeMove.relative_move" ++
          ", post_distance=" ++ strTail "r-42xy", "r-42xy") ∧
    handle_post (Py.str "z7")
      = ("", ", post_home=PostHomeMove.move_and_hmz" ++
          ", post_distance=" ++ strTail "z7", "z7") :=
  ⟨(post_rz_distance_tail "r-42xy").1 (by decide),
   (post_rz_distance_tail "z7").2 (by decide)⟩

theorem isPrefixList_self_append (a b : List Char) :
    isPrefixList a (a ++ b) = true := by
  induction a with
  | nil => rfl
  | cons c rest ih => simp [isPrefixList, ih]

theorem hasSub_start (small suf : List Char) :
    hasSub (small ++ suf) small = true := by
  cases small with
  | nil =>
    cases suf with
    | nil => rfl
    | cons c r => simp [hasSub, isPrefixList]
  | cons c r =>
    have h := isPrefixList_self_append (c :: r) suf
    simp only [List.cons_append] at h
    simp [hasSub, h]

theorem hasSub_append_right (big small ext : List Char)
    (h : hasSub big small = true) : hasSub (ext ++ big) small = true := by
  induction ext with
  | nil => simpa using h
  | cons c rest ih => simp [hasSub, ih]

theorem hasSub_parts (pre mid suf : List Char) :
    hasSub (pre ++ (mid ++ suf)) mid = true :=
  hasSub_append_right (mid ++ suf) mid pre (hasSub_start mid suf)

theorem flatMap_no_tab (l : List Char) (h : ∀ c ∈ l, c ≠ '\t') :
    (l.flatMap fun c => if c = '\t' then [' ', ' ', ' ', ' '] else [c]) = l := by
  induction l with
  | nil => rfl
  | cons c rest ih =>
    have hc : c ≠ '\t' := h c (by simp)
    rw [List.flatMap_cons, if_neg hc, ih (fun d hd => h d (by simp [hd]))]
    rfl

theorem tabSub_no_tab (s : String) (h : ∀ c ∈ s.data, c ≠ '\t') :
    tabSub s = s :=
  String.ext (flatMap_no_tab s.data h)

theorem handle_post_raw (s : String)
    (h0 : s ≠ "0") (hi : s ≠ "i") (hh : s ≠ "h") (hl : s ≠ "l")
    (hH : s ≠ "H") (hL : s ≠ "L")
    (hr : post_relative_move s = false) (hz : post_relative_hmz_move s = false) :
    handle_post (Py.str s) = (s, "", "None") := by
  unfold handle_post
  split_ifs with h1 h2 h3 h4 h5 h6
  · simp only [pyEq, Bool.or_eq_true, decide_eq_true_eq] at h1
    rcases h1 with (h1 | h1) | h1
    · exact Bool.noConfusion h1
    · exact Bool.noConfusion h1
    · exact absurd h1 h0
  · simp only [pyEq, decide_eq_true_eq] at h2; exact absurd h2 hi
  · simp only [pyEq, decide_eq_true_eq] at h3; exact absurd h3 hh
  · simp only [pyEq, decide_eq_true_eq] at h4; exact absurd h4 hl
  · simp only [pyEq, decide_eq_true_eq] at h5; exact absurd h5 hH
  · simp only [pyEq, decide_eq_true_eq] at h6; exact absurd h6 hL
  · simp only [show post_relative_move (pyStr (Py.str s)) = false from hr,
      show post_relative_hmz_move (pyStr (Py.str s)) = false from hz]
    rfl

/-- C3 counterexample: the raw token "a\tb" (which matches no short code) is
not emitted byte for byte: the tab inside it is replaced by four spaces in
the generated post block, so the original text does not occur in the
output. -/
theorem raw_post_tab_cex :
    (handle_post (Py.str "a\tb")).1 = "a\tb" ∧
    hasSub (make_code_post_block 1 ((handle_post (Py.str "a\tb")).1)).data
      "a\tb".data = false := by
  constructor
  · decide
  · decide

/-- C3 (amended): a raw post token round trips through `handle_post` and the
post block of `make_code` with its tabs normalized to four spaces and is
otherwise preserved byte for byte; in particular a tab free raw token
occurs verbatim in the generated source. -/
theorem raw_post_roundtrip (g : Int) (s : String)
    (h0 : s ≠ "0") (hi : s ≠ "i") (hh : s ≠ "h") (hl : s ≠ "l")
    (hH : s ≠ "H") (hL : s ≠ "L")
    (hr : post_relative_move s = false) (hz : post_relative_hmz_move s = false) :
    (handle_post (Py.str s)).1 = s ∧
    hasSub (make_code_post_block g ((handle_post (Py.str s)).1)).data
      (tabSub s).data = true ∧
    ((∀ c ∈ s.data, c ≠ '\t') →
      hasSub (make_code_post_block g ((handle_post (Py.str s)).1)).data
        s.data = true) := by
  have hra := handle_post_raw s h0 hi hh hl hH hL hr hz
  have hcode : (handle_post (Py.str s)).1 = s := by rw [hra]
  have hmain : hasSub (make_code_post_block g ((handle_post (Py.str s)).1)).data
      (tabSub s).data = true := by
    rw [hcode]
    simp only [make_code_post_block, Indenter.format_text, String.data_append,
      List.append_assoc]
    repeat
      first
      | exact hasSub_start _ _
      | apply hasSub_append_right
  refine ⟨hcode, hmain, fun hnt => ?_⟩
  rw [show (tabSub s).data = s.data from congrArg String.data (tabSub_no_tab s hnt)]
    at hmain
  exact hmain

/-- C3 witness: a concrete tab free raw token round trips verbatim. -/
theorem raw_post_roundtrip_spot :
    (handle_post (Py.str "HM14 custom")).1 = "HM14 custom" ∧
    hasSub (make_code_post_block 2 ((handle_post (Py.str "HM14 custom")).1)).data
      (tabSub "HM14 custom").data = true ∧
    ((∀ c ∈ "HM14 custom".data, c ≠ '\t') →
      hasSub (make_code_post_block 2 ((handle_post (Py.str "HM14 custom")).1)).data
        "HM14 custom".data = true) :=
  raw_post_roundtrip 2 "HM14 custom" (by decide) (by decide) (by decide)
    (by decide) (by decide) (by decide) (by decide) (by decide)

/-- C10: a numeric post token equal to zero, the float 0.0 included, is
classified as "no post-home action" (empty raw code and empty extra
arguments), not as move_absolute with distance 0: the membership test
against `(None, 0, "0")` compares by numeric equality and fires before the
numeric-type branch. -/
theorem zero_post_no_action :
    (∀ n : Int, n = 0 → handle_post (Py.int n) = ("", "", "0")) ∧
    (∀ q : Rat, q = 0 →
      (handle_post (Py.float q)).1 = "" ∧
      (handle_post (Py.float q)).2.1 = "" ∧
      (handle_post (Py.float q)).2.2 = "0.0") := by
  constructor
  · intro n hn
    subst hn
    rfl
  · intro q hq
    subst hq
    refine ⟨rfl, rfl, rfl⟩

/-- C10 witness at the int 0 and float 0.0 tokens. -/
theorem zero_post_no_action_spot :
    handle_post (Py.int 0) = ("", "", "0") ∧
    (handle_post (Py.float 0)).2.1 = "" :=
  ⟨zero_post_no_action.1 0 rfl, (zero_post_no_action.2 0 rfl).2.1⟩

theorem insertAsc_perm (x : Int) (l : List Int) :
    (insertAsc x l).Perm (x :: l) := by
  induction l with
  | nil => exact List.Perm.refl _
  | cons y ys ih =>
    by_cases h : x ≤ y
    · simp [insertAsc, h]
    · simp only [insertAsc, if_neg h]
      exact ((ih.cons y).trans (List.Perm.swap x y ys)).symm.symm

theorem sortAsc_perm (l : List Int) : (sortAsc l).Perm l := by
  induction l with
  | nil => exact List.Perm.refl _
  | cons x xs ih =>
    exact (insertAsc_perm x (sortAsc xs)).trans (ih.cons x)

theorem insertAsc_sorted (x : Int) (l : List Int)
    (h : l.Sorted (· ≤ ·)) : (insertAsc x l).Sorted (· ≤ ·) := by
  induction l with
  | nil => simp [insertAsc]
  | cons y ys ih =>
    rw [List.sorted_cons] at h
    by_cases hxy : x ≤ y
    · rw [insertAsc, if_pos hxy, List.sorted_cons]
      refine ⟨?_, List.sorted_cons.mpr h⟩
      intro b hb
      rcases List.mem_cons.mp hb with rfl | hb
      · exact hxy
      · exact le_trans hxy (h.1 b hb)
    · rw [insertAsc, if_neg hxy, List.sorted_cons]
      refine ⟨?_, ih h.2⟩
      intro b hb
      rcases List.mem_cons.mp ((insertAsc_perm x ys).mem_iff.mp hb) with rfl | hb
      · exact le_of_not_le hxy
      · exact h.1 b hb

theorem sortAsc_sorted (l : List Int) : (sortAsc l).Sorted (· ≤ ·) := by
  induction l with
  | nil => simp [sortAsc]
  | cons x xs ih => exact insertAsc_sorted x (sortAsc xs) ih

/-- C6: the group numbers of one PLC are emitted in strictly ascending order
(group numbers are unique within a PLC, being dict keys), and the emission
order is the same for any creation (insertion) order of the same groups. -/
theorem group_emit_sorted (groups groups' : List (Int × GroupRec))
    (hnd : (groups.map Prod.fst).Nodup) (hperm : groups.Perm groups') :
    (emittedGroupNums groups).Sorted (· < ·) ∧
    emittedGroupNums groups = emittedGroupNums groups' := by
  constructor
  · have hs := sortAsc_sorted (groups.map Prod.fst)
    have hn : (sortAsc (groups.map Prod.fst)).Nodup :=
      (sortAsc_perm (groups.map Prod.fst)).nodup_iff.mpr hnd
    unfold emittedGroupNums
    exact hs.lt_of_le hn
  · unfold emittedGroupNums
    refine List.eq_of_perm_of_sorted ?_ (sortAsc_sorted _) (sortAsc_sorted _)
    exact (sortAsc_perm _).trans ((hperm.map Prod.fst).trans (sortAsc_perm _).symm)

/-- C6 witness: two creation orders of the same three groups. -/
theorem group_emit_sorted_spot :
    (emittedGroupNums [(7, ⟨7⟩), (2, ⟨2⟩), (5, ⟨5⟩)]).Sorted (· < ·) ∧
    emittedGroupNums [(7, ⟨7⟩), (2, ⟨2⟩), (5, ⟨5⟩)]
      = emittedGroupNums [(2, ⟨2⟩), (5, ⟨5⟩), (7, ⟨7⟩)] :=
  group_emit_sorted [(7, ⟨7⟩), (2, ⟨2⟩), (5, ⟨5⟩)]
    [(2, ⟨2⟩), (5, ⟨5⟩), (7, ⟨7⟩)] (by decide) (by decide)

theorem checkLoop_spec (pairs : List DiffPair) :
    ∀ (c m : Nat) (acc : String),
      checkLoop pairs c m acc
        = (c + pairs.length,
           m + (pairs.filter fun p => p.same = false).length,
           acc ++ joinStr (mismatchLines pairs)) := by
  induction pairs with
  | nil =>
    intro c m acc
    simp [checkLoop, mismatchLines, joinStr]
  | cons p rest ih =>
    intro c m acc
    by_cases hps : p.same
    · rw [checkLoop, if_pos hps, ih]
      simp [mismatchLines, List.filter_cons, hps, Prod.ext_iff]
      omega
    · rw [checkLoop, if_neg hps, ih]
      simp only [Bool.not_eq_true] at hps
      simp [mismatchLines, List.filter_cons, hps, joinStr, String.append_assoc,
        Prod.ext_iff]
      omega

/-- C8: for a verification run over N compared files with M mismatches, the
emitted log contains a message stating "M of N", when M > 0 it contains the
listing of exactly the M mismatched path pairs (in comparison order), the
promotion command message is in the log in every case (the report is
produced before the assert can fire), and the final assert passes exactly
when M = 0, i.e. the run fails if and only if M > 0. -/
theorem check_matches_report (pairs : List DiffPair)
    (originalPath oldMotion newMotion : String) (copyGen : CopyGen) :
    ((check_matches pairs originalPath oldMotion newMotion copyGen).2 = true
      ↔ (pairs.filter fun p => p.same = false).length = 0) ∧
    (∃ pre suf,
      pre ++ (toString (pairs.filter fun p => p.same = false).length ++
        " of " ++ toString pairs.length) ++ suf
        ∈ (check_matches pairs originalPath oldMotion newMotion copyGen).1) ∧
    ((pairs.filter fun p => p.same = false).length > 0 →
      ("The following PLCs did not match the originals:\n" ++
        joinStr (mismatchLines pairs))
        ∈ (check_matches pairs originalPath oldMotion newMotion copyGen).1) ∧
    copyMsgOf copyGen originalPath
      ∈ (check_matches pairs originalPath oldMotion newMotion copyGen).1 := by
  unfold check_matches
  rw [checkLoop_spec]
  simp only [Nat.zero_add]
  by_cases hM : (pairs.filter fun p => p.same = false).length = 0
  · rw [if_pos hM]
    refine ⟨by simp [hM], ?_, ?_, ?_⟩
    · refine ⟨"Success: ",
        " new generated PLCs don\x27t match old PLCs for " ++ originalPath, ?_⟩
      rw [hM, show toString (0 : Nat) = "0" from by decide]
      simp only [String.append_assoc, List.cons_append, List.nil_append,
        List.mem_cons, List.mem_singleton]
      refine Or.inr (Or.inl ?_)
      rw [← String.append_assoc, ← String.append_assoc]
      rw [show ("Success: " ++ "0" ++ " of " : String) = "Success: 0 of " from
        by decide]
    · intro hgt
      omega
    · simp
  · rw [if_neg hM]
    refine ⟨by simp [hM], ?_, ?_, ?_⟩
    · refine ⟨"Failure: ",
        " PLC files do not match for " ++ originalPath ++
          "\nreview differences with:\nmeld " ++ oldMotion ++ " " ++ newMotion ++
          "\n", ?_⟩
      simp [String.append_assoc]
    · intro hgt
      simp
    · simp

/-- C8 witness: a concrete run with one mismatch out of two, showing the
mismatch listing in the emitted log. -/
theorem check_matches_report_spot :
    ("The following PLCs did not match the originals:\n" ++
      joinStr (mismatchLines [⟨"a", "b", true⟩, ⟨"c", "d", false⟩]))
      ∈ (check_matches [⟨"a", "b", true⟩, ⟨"c", "d", false⟩] "/orig" "/old"
          "/new" (CopyGen.single "/gen")).1 :=
  (check_matches_report [⟨"a", "b", true⟩, ⟨"c", "d", false⟩] "/orig" "/old"
    "/new" (CopyGen.single "/gen")).2.2.1 (by decide)

/-- C9: evaluation of the name derivation at the failing input.  For a
script consisting of the two uncommented branch lines `if name == "a"` and
`if name == "b"`, the code derives only `PLCs/PLC11_b_HM.pmc`: the `[^#]*`
of the pattern also matches newlines, so the greedy match starting at the
first line swallows both lines and captures only the last branch.  The
claimed per-line scan would give one name per branch line. -/
theorem derive_names_eval :
    deriveNames "if name == \"a\"\nif name == \"b\"\n" = ["PLCs/PLC11_b_HM.pmc"] ∧
    claimDeriveNames "if name == \"a\"\nif name == \"b\"\n"
      = ["PLCs/PLC11_a_HM.pmc", "PLCs/PLC12_b_HM.pmc"] ∧
    deriveNames "if name == \"a\"\nif name == \"b\"\n"
      ≠ claimDeriveNames "if name == \"a\"\nif name == \"b\"\n" := by
  refine ⟨by decide, by decide, by decide⟩
